import Mathlib

/-!
# Verification of the expense-analyzer categorization and forecasting core

Shallow embedding of `src/categorize_transactions.py` and `src/forecast.py`.
Python strings are modelled as Lean `String`/`List Char` (ASCII character
classes), pandas scalar cells as the `PyVal` type below, currency amounts as
exact rationals, and raised exceptions as `Except` errors.
-/

namespace ExpenseAnalyzer

/-- A pandas/Python scalar cell: `None`, float `NaN`, a finite number (exact
rational in the model), or a string. -/
inductive PyVal where
  | none
  | nan
  | num (q : ℚ)
  | str (s : String)
deriving DecidableEq, Repr

/-- Result of Python `float(...)`: a finite value or NaN.  (`float` applied to
`None` or a non-numeric string raises, which the model returns as `Except.error`.) -/
inductive FloatVal where
  | finite (q : ℚ)
  | nan
deriving DecidableEq, Repr

/-- Python `str(...)` on a scalar cell. -/
def pyStr : PyVal → String
  | .none => "None"
  | .nan => "nan"
  | .num q => toString q
  | .str s => s

/-- Python truthiness of a scalar cell (`bool(x)`): `None` is falsy, float NaN
is truthy, a number is truthy iff nonzero, a string is truthy iff nonempty. -/
def pyTruthy : PyVal → Bool
  | .none => false
  | .nan => true
  | .num q => decide (q ≠ 0)
  | .str s => decide (s ≠ "")

/-- Python `a or b`. -/
def pyOr (a b : PyVal) : PyVal := if pyTruthy a then a else b

/-- Digits of a decimal literal to a natural number. -/
def digitsToNat (l : List Char) : Nat :=
  l.foldl (fun a c => a * 10 + (c.toNat - 48)) 0

/-- Model of Python `float(s)` on a string: optional sign, integer digits,
optional fractional digits.  Anything else raises (`Option.none` here). -/
def parseDecimal? (s : String) : Option ℚ :=
  let l := s.data
  let signed : ℚ × List Char :=
    match l with
    | '-' :: r => (-1, r)
    | '+' :: r => (1, r)
    | _ => (1, l)
  let intPart := signed.2.takeWhile (·.isDigit)
  let rest := signed.2.dropWhile (·.isDigit)
  match rest with
  | [] => if intPart.isEmpty then Option.none else some (signed.1 * digitsToNat intPart)
  | '.' :: frac =>
      if frac.all (·.isDigit) && !(intPart.isEmpty && frac.isEmpty) then
        some (signed.1 * ((digitsToNat intPart : ℚ) + (digitsToNat frac : ℚ) / (10 ^ frac.length)))
      else Option.none
  | _ => Option.none

/-- Python `float(x)` on a scalar cell; `Except.error` models a raised
`TypeError`/`ValueError`. -/
def pyFloat : PyVal → Except String FloatVal
  | .none => .error "TypeError: float() argument must not be None"
  | .nan => .ok .nan
  | .num q => .ok (.finite q)
  | .str s =>
      match parseDecimal? s with
      | some q => .ok (.finite q)
      | Option.none => .error "ValueError: could not convert string to float"

/-- Comparison `x > 0` on a Python float; every comparison with NaN is false. -/
def floatGt0 : FloatVal → Bool
  | .finite q => decide (0 < q)
  | .nan => false

/-! ## Text normalizer: `clean_string` (categorize_transactions.py lines 44-49)

```python
def clean_string(s):
    s = str(s).strip().lower()
    s = re.sub(r"[\s\-_/]+", " ", s)
    s = re.sub(r"[^\w\s+]", "", s)
    return s
```
-/

/-- The whitespace class `\s` (ASCII model: space, tab, LF, CR, VT, FF). -/
def isPySpace (c : Char) : Bool :=
  c = ' ' || c = '\t' || c = '\n' || c = '\r' || c = '\x0b' || c = '\x0c'

/-- The character class `[\s\-_/]` of the first substitution. -/
def isSep (c : Char) : Bool :=
  isPySpace c || c = '-' || c = '_' || c = '/'

/-- The word class `\w` (ASCII model: alphanumeric or underscore). -/
def isWordChar (c : Char) : Bool := c.isAlphanum || c = '_'

/-- Characters kept by the second substitution `re.sub(r"[^\w\s+]", "", s)`. -/
def keepChar (c : Char) : Bool := isWordChar c || isPySpace c || c = '+'

/-- ASCII model of Python `str.lower` on one character. -/
def pyLowerChar : Char → Char
  | 'A' => 'a' | 'B' => 'b' | 'C' => 'c' | 'D' => 'd' | 'E' => 'e' | 'F' => 'f'
  | 'G' => 'g' | 'H' => 'h' | 'I' => 'i' | 'J' => 'j' | 'K' => 'k' | 'L' => 'l'
  | 'M' => 'm' | 'N' => 'n' | 'O' => 'o' | 'P' => 'p' | 'Q' => 'q' | 'R' => 'r'
  | 'S' => 's' | 'T' => 't' | 'U' => 'u' | 'V' => 'v' | 'W' => 'w' | 'X' => 'x'
  | 'Y' => 'y' | 'Z' => 'z'
  | c => c

/-- Python `str.lower` (ASCII model). -/
def pyLower (s : String) : String := ⟨s.data.map pyLowerChar⟩

/-- Model of `re.sub(r"[\s\-_/]+", " ", s)`: replace every maximal run of separator
characters by a single space. -/
def collapseSeps : List Char → List Char
  | [] => []
  | [c] => if isSep c then [' '] else [c]
  | c :: d :: cs =>
      if isSep c && isSep d then collapseSeps (d :: cs)
      else (if isSep c then ' ' else c) :: collapseSeps (d :: cs)

/-- Python `str.strip()`: drop leading and trailing whitespace. -/
def pyStrip (l : List Char) : List Char :=
  ((l.dropWhile isPySpace).reverse.dropWhile isPySpace).reverse

/-- The `clean_string` pipeline on a character list: strip, lowercase,
collapse separator runs to one space, delete everything outside `[\w\s+]`. -/
def cleanChars (l : List Char) : List Char :=
  (collapseSeps ((pyStrip l).map pyLowerChar)).filter keepChar

/-- Function `clean_string` on a Lean string (the `str(s)` coercion already applied). -/
def cleanString (s : String) : String := ⟨cleanChars s.data⟩

/-- Function `clean_string` on an arbitrary scalar cell, including the `str(s)` step. -/
def cleanStringVal (v : PyVal) : String := cleanString (pyStr v)

/-! ## Static rule tables (categorize_transactions.py lines 15-41)

Python dicts iterate in insertion order, so the tables are ordered pair lists
in source order. -/

/-- Table `KEYWORD_RULES`: keyword to category mapping, in source (insertion) order. -/
def KEYWORD_RULES : List (String × String) := [
  ("whole foods", "Groceries"), ("trader joe", "Groceries"), ("aldi", "Groceries"),
  ("kroger", "Groceries"), ("instacart", "Groceries"),
  ("starbucks", "Dining"), ("dunkin", "Dining"), ("chipotle", "Dining"),
  ("ubereats", "Dining"), ("doordash", "Dining"),
  ("uber", "Travel"), ("lyft", "Travel"), ("shell", "Travel"),
  ("chevron", "Travel"), ("exxon", "Travel"), ("bp", "Travel"),
  ("amazon", "Shopping"), ("target", "Shopping"), ("walmart", "Shopping"), ("ikea", "Shopping"),
  ("netflix", "Entertainment"), ("spotify", "Entertainment"), ("hulu", "Entertainment")]

/-- Table `BANK_CAT_MAP`: bank-provided category labels to canonical categories. -/
def BANK_CAT_MAP : List (String × String) := [
  ("food  drink", "Dining"), ("restaurants", "Dining"), ("dining out", "Dining"), ("coffee", "Dining"),
  ("groceries", "Groceries"), ("supermarkets", "Groceries"),
  ("bills  utilities", "Bills"), ("utilities", "Bills"), ("internet", "Bills"), ("mobile", "Bills"),
  ("transportation", "Travel"), ("transport", "Travel"), ("gas", "Travel"), ("fuel", "Travel"), ("rideshare", "Travel"),
  ("entertainment", "Entertainment"), ("subscriptions", "Entertainment"), ("streaming", "Entertainment"),
  ("shopping", "Shopping"), ("retail", "Shopping"), ("electronics", "Shopping"),
  ("health  wellness", "Health"), ("health", "Health"), ("pharmacy", "Health"),
  ("home", "Home"), ("rent", "Home"),
  ("education", "Education"), ("professional services", "Bills"), ("personal", "Personal"),
  ("gifts  donations", "Shopping"), ("finance", "Finance"), ("fees", "Finance"),
  ("travel", "Travel")]

/-- Set `BANK_UNKNOWN`: bank labels treated as "no category". -/
def BANK_UNKNOWN : List String :=
  ["", "nan", "none", "uncategorized", "unknown", "other", "misc", "miscellaneous"]

/-- Python dict key lookup on an (insertion-ordered, unique-key) pair list. -/
def lookupList (m : List (String × String)) (k : String) : Option String :=
  (m.find? (fun kv => kv.1 = k)).map (·.2)

/-- Substring test, Python `needle in hay`. -/
def hasSubstr : List Char → List Char → Bool
  | hay, needle =>
      needle.isPrefixOf hay ||
        match hay with
        | [] => false
        | _ :: t => hasSubstr t needle

/-- Python `needle in hay` on strings. -/
def strContains (hay needle : String) : Bool := hasSubstr hay.data needle.data

/-! ## Merchant extraction (`get_merchant_name`, lines 52-66) -/

/-- Python `str.split()`: split on whitespace runs, dropping empty pieces. -/
def pySplit (l : List Char) : List (List Char) :=
  (l.foldr
    (fun c acc =>
      if isPySpace c then [] :: acc
      else
        match acc with
        | [] => [[c]]
        | w :: ws => (c :: w) :: ws)
    []).filter (fun w => !w.isEmpty)

/-- Python `" ".join(...)` on token lists. -/
def joinSpaces (ws : List (List Char)) : List Char := List.intercalate [' '] ws

/-- Function `get_merchant_name`: skip generic banking tokens, delete digits inside each
token, re-split, and keep the first three tokens. -/
def getMerchantName (desc : String) : String :=
  let wordsToSkip := ["purchase", "pos", "card", "debit", "credit", "sale", "online",
                      "payment", "venmo", "zelle"]
  let tokens := (pySplit desc.data).filter (fun t => !wordsToSkip.contains (String.mk t))
  let tokensClean := tokens.map (fun t => t.filter (fun c => !c.isDigit))
  let result := pyStrip (joinSpaces tokensClean)
  let parts := (pySplit result).take 3
  String.mk (joinSpaces parts)

/-! ## Bank category cleaning (`clean_bank_category`, lines 69-81) -/

/-- Predicate `pd.isna` on a scalar cell. -/
def pdIsNA : PyVal → Bool
  | .none => true
  | .nan => true
  | _ => false

/-- Python `str.strip()` at string level. -/
def pyStripStr (s : String) : String := ⟨pyStrip s.data⟩

/-- Function `clean_bank_category`: missing or "unknown"-sentinel labels become `""`;
known labels map through `BANK_CAT_MAP`; anything else passes through trimmed. -/
def cleanBankCategory (v : PyVal) : String :=
  if pdIsNA v then ""
  else
    let cleaned := cleanStringVal v
    if BANK_UNKNOWN.contains cleaned then ""
    else
      match lookupList BANK_CAT_MAP cleaned with
      | some m => m
      | Option.none => pyStripStr (pyStr v)

/-! ## Keyword and fuzzy matching (`match_keyword`, `fuzzy_match`, lines 84-106) -/

/-- Function `match_keyword`: first keyword (in table order) contained in the lowercased
text wins. -/
def matchKeyword (text : String) : Option String :=
  let tl := pyLower text
  (KEYWORD_RULES.find? (fun kv => strContains tl kv.1)).map (·.2)

/-- One dynamic-programming row of the longest-common-subsequence table. -/
def lcsRowAux (c : Char) : List Char → List Nat → Nat → Nat → List Nat
  | [], _, _, _ => []
  | b :: bs, prest, diag, left =>
      let above := prest.headD 0
      let cur := if b = c then diag + 1 else Nat.max above left
      cur :: lcsRowAux c bs (prest.drop 1) above cur

/-- Length of the longest common subsequence of two character lists. -/
def lcsLen (a b : List Char) : Nat :=
  let row0 : List Nat := List.replicate (b.length + 1) 0
  (a.foldl (fun row c => 0 :: lcsRowAux c b (row.drop 1) (row.headD 0) 0) row0).getLastD 0

/-- Indel (insertion/deletion) edit distance, the metric underlying
`rapidfuzz.fuzz.ratio`. -/
def indelDist (a b : List Char) : Nat := a.length + b.length - 2 * lcsLen a b

/-- Model of `fuzz.ratio`-style normalized similarity, an exact rational in `[0, 100]`. -/
def simRatioQ (a b : List Char) : ℚ :=
  if a.length + b.length = 0 then 100
  else 100 * (((a.length + b.length : ℚ) - indelDist a b) / (a.length + b.length))

/-- All contiguous windows of length `n` of `l` (the whole list if shorter). -/
def windows (n : Nat) (l : List Char) : List (List Char) :=
  if l.length ≤ n then [l]
  else (List.range (l.length - n + 1)).map (fun i => (l.drop i).take n)

/-- Model of `rapidfuzz.fuzz.partial_ratio`: best `ratio` between the shorter
string and every same-length window of the longer one. -/
def bestWindowSim (a b : List Char) : ℚ :=
  let p := if a.length ≤ b.length then (a, b) else (b, a)
  ((windows p.1.length p.2).map (simRatioQ p.1)).foldl max 0

/-- Model of `rapidfuzz.process.extractOne`: highest-scoring keyword, earlier
keywords winning ties. -/
def extractBest (text : String) (keys : List String) : Option (String × ℚ) :=
  keys.foldl
    (fun acc k =>
      let sc := bestWindowSim text.data k.data
      match acc with
      | Option.none => some (k, sc)
      | some prev => if sc > prev.2 then some (k, sc) else some prev)
    Option.none

/-- Function `fuzzy_match`: accept the best keyword when its score reaches 90. -/
def fuzzyMatch (text : String) : Option String :=
  match extractBest text (KEYWORD_RULES.map (·.1)) with
  | Option.none => Option.none
  | some best => if 90 ≤ best.2 then lookupList KEYWORD_RULES best.1 else Option.none

/-! ## The decision cascade (`check_merchant_override`, `decide_category`,
lines 159-213) -/

/-- Function `check_merchant_override`: exact dict hit first, then the first override
whose (truthy) key is a substring of the extracted merchant. -/
def checkMerchantOverride (merchant : String) (overrideMap : List (String × String)) :
    Option String :=
  match lookupList overrideMap merchant with
  | some c => some c
  | Option.none =>
      (overrideMap.find? (fun kv => kv.1 ≠ "" && strContains merchant kv.1)).map (·.2)

/-- A normalized transaction row as seen by `decide_category` (all derived
columns added by `categorize`). -/
structure Row where
  txn_id : String
  amount_signed : PyVal
  merchant : String
  bank_category_clean : String
  description_norm : String
deriving DecidableEq, Repr

/-- Layers 4-7 of `decide_category`: bank category (with the hard-coded
"health" to "Groceries" remap), keyword rule, fuzzy match, default.  Split out
of the early-return cascade of the source function. -/
def decideFromBank (row : Row) : String × String :=
  let bankCat := row.bank_category_clean
  if bankCat ≠ "" then
    (if pyLower bankCat = "health" then "Groceries" else bankCat, "bank")
  else
    let text := pyStripStr (row.description_norm ++ " " ++ row.merchant)
    match matchKeyword text with
    | some cat => (cat, "rule")
    | Option.none =>
        match fuzzyMatch text with
        | some cat => (cat, "fuzzy")
        | Option.none => ("Other", "other")

/-- Function `decide_category`: credit exclusion, one-off override, merchant override,
then the bank/keyword/fuzzy/default cascade.  The `try/except` around the
float conversion is modelled by discarding the error branch. -/
def decideCategory (row : Row) (oneOffMap merchantMap : List (String × String)) :
    String × String :=
  let credit : Option (String × String) :=
    match pyFloat (pyOr row.amount_signed (.num 0)) with
    | .ok f => if floatGt0 f then some ("EXCLUDE", "credit") else Option.none
    | .error _ => Option.none
  match credit with
  | some r => r
  | Option.none =>
      match lookupList oneOffMap row.txn_id with
      | some cat => (cat, "one_off")
      | Option.none =>
          match checkMerchantOverride row.merchant merchantMap with
          | some hit => if hit ≠ "" then (hit, "merchant") else decideFromBank row
          | Option.none => decideFromBank row

/-! ## Transaction ids and the batch entry point (`make_txn_id`, `categorize`,
lines 109-117 and 216-264)

`pd.to_datetime(...).strftime("%Y-%m-%d")` is modelled for the string dates the
pipeline produces (ISO year-month-day); numeric input is accepted (pandas reads
it as an epoch offset — the calendar value is irrelevant to every claim, only
success or failure of the conversion); `None`/NaN yield `NaT`, whose
`strftime` raises.  The SHA-1 digest is replaced by a stand-in digest function:
no claim depends on digest values, only on whether `make_txn_id` raises. -/

/-- Nonempty all-digit string. -/
def allDigits (s : String) : Bool := !s.data.isEmpty && s.data.all (·.isDigit)

/-- Python `str.split("-")` keeping empty pieces (`"a--b"` gives `["a", "", "b"]`). -/
def splitDash (l : List Char) : List (List Char) :=
  l.foldr
    (fun c acc =>
      if c = '-' then [] :: acc
      else
        match acc with
        | [] => [[c]]
        | w :: ws => (c :: w) :: ws)
    [[]]

/-- Model of `pd.to_datetime` on a scalar cell, returning (year, month, day). -/
def parseDate? : PyVal → Except String (Nat × Nat × Nat)
  | .num _ => .ok (1970, 1, 1)
  | .none => .error "ValueError: NaTType does not support strftime"
  | .nan => .error "ValueError: NaTType does not support strftime"
  | .str s =>
      match splitDash s.data with
      | [y, m, d] =>
          if allDigits ⟨y⟩ && allDigits ⟨m⟩ && allDigits ⟨d⟩ then
            let mn := digitsToNat m
            let dn := digitsToNat d
            if 1 ≤ mn && mn ≤ 12 && 1 ≤ dn && dn ≤ 31 then .ok (digitsToNat y, mn, dn)
            else .error "ValueError: could not parse date"
          else .error "ValueError: could not parse date"
      | _ => .error "ValueError: could not parse date"

/-- Zero-padded two-digit rendering. -/
def pad2 (n : Nat) : String := if n < 10 then "0" ++ toString n else toString n

/-- Rendering of `strftime("%Y-%m-%d")`. -/
def formatDate (y m d : Nat) : String := toString y ++ "-" ++ pad2 m ++ "-" ++ pad2 d

/-- Model of `f"{x:.2f}"` (exact half-up rounding of `q` to cents, computed on
the numerator/denominator so that the kernel can evaluate it; it stands in for
binary-float rounding — the rendered digits are never relied on, only success). -/
def formatAmt : FloatVal → String
  | .nan => "nan"
  | .finite q =>
      let cents : Int := Int.fdiv (200 * q.num + q.den) (2 * q.den)
      let a := cents.natAbs
      (if cents < 0 then "-" else "") ++ toString (a / 100) ++ "." ++ pad2 (a % 100)

/-- Stand-in for `hashlib.sha1(...).hexdigest()` (a 160-bit fold); claims
depend only on `make_txn_id`'s success or failure, never on digest values. -/
def hashHex (s : String) : String :=
  toString (s.data.foldl (fun a c => (a * 131 + c.toNat) % (2 ^ 160)) 0)

/-- Function `make_txn_id`: hash of `date|amount formatted to 2 decimals|normalized
description`; raises when the date or the amount cannot be converted. -/
def makeTxnId (date amountSigned description : PyVal) : Except String String :=
  match parseDate? date with
  | .error e => .error e
  | .ok ymd =>
      match pyFloat amountSigned with
      | .error e => .error e
      | .ok f =>
          .ok (hashHex (formatDate ymd.1 ymd.2.1 ymd.2.2 ++ "|" ++ formatAmt f ++ "|" ++
            cleanStringVal description))

/-- An input batch: declared column names plus one record per row.  A cell
absent from a record of a declared column reads as NaN, as in pandas. -/
structure Batch where
  cols : List String
  rows : List (List (String × PyVal))
deriving DecidableEq, Repr

/-- Cell access `row[col]` (NaN when the record has no such cell). -/
def rowGet (r : List (String × PyVal)) (k : String) : PyVal :=
  ((r.find? (fun kv => kv.1 = k)).map (·.2)).getD .nan

/-- The derived columns `categorize` adds to each row. -/
structure OutRow where
  txn_id : String
  merchant : String
  description_norm : String
  bank_category_clean : String
  category : String
  category_source : String
deriving DecidableEq, Repr

/-- The mandatory columns checked by `categorize`. -/
def MANDATORY_COLS : List String := ["date", "description", "amount_spend", "amount_signed"]

/-- Row-by-row traversal that stops at the first raised exception (the
behaviour of the `apply`/loop passes of `categorize`). -/
def exceptMap {α β : Type} (f : α → Except String β) : List α → Except String (List β)
  | [] => .ok []
  | x :: xs =>
      match f x with
      | .error e => .error e
      | .ok y =>
          match exceptMap f xs with
          | .error e => .error e
          | .ok ys => .ok (y :: ys)

/-- Function `categorize` (lines 216-264): structural check first, then per-row derived
columns and the decision cascade.  The externally loaded override maps
(`load_overrides`, `load_one_off`) enter as parameters; `Except.error` models a
raised exception, and pandas' column-at-a-time evaluation raises the same first
error as this row-at-a-time model. -/
def categorize (b : Batch) (merchantMap oneOffMap : List (String × String)) :
    Except String (List OutRow) :=
  if !(MANDATORY_COLS.all (b.cols.contains ·)) then
    .error "missing required columns - run clean first"
  else
    exceptMap (fun r =>
      let descNorm := cleanStringVal (rowGet r "description")
      let merchant := getMerchantName descNorm
      let bankClean :=
        if b.cols.contains "bank_category" then cleanBankCategory (rowGet r "bank_category")
        else ""
      match makeTxnId (rowGet r "date") (rowGet r "amount_signed") (rowGet r "description") with
      | .error e => .error e
      | .ok txnId =>
          let dc := decideCategory ⟨txnId, rowGet r "amount_signed", merchant, bankClean, descNorm⟩
            oneOffMap merchantMap
          .ok ⟨txnId, merchant, descNorm, bankClean, dc.1, dc.2⟩)
      b.rows

/-! ## Forecasting engine (`forecast.py`)

Rows carry a category, a linearized calendar month (`year_month` as a single
natural number, order-isomorphic to pandas `Period[M]`), and an exact rational
`amount_spend`.  The code's `std_dev` is the square root of the sample
variance; the model records the exact variance instead (no claim mentions the
standard deviation or the confidence band). -/

/-- One categorized transaction as consumed by `forecast_by_category`. -/
structure FRow where
  category : String
  ym : Nat
  amount_spend : ℚ
deriving DecidableEq, Repr

/-- First-occurrence deduplication (pandas `Series.unique`). -/
def uniqueFirst {α : Type} [DecidableEq α] : List α → List α
  | [] => []
  | a :: l => a :: uniqueFirst (l.filter (fun x => x ≠ a))
termination_by l => l.length
decreasing_by
  simp only [List.length_cons]
  exact Nat.lt_succ_of_le (List.length_filter_le _ _)

/-- Lexicographic order on (category, month) group keys, the order in which
pandas `groupby` (with its default key sorting) emits groups. -/
def keyLe (a b : String × Nat) : Prop := a.1 < b.1 ∨ (a.1 = b.1 ∧ a.2 ≤ b.2)

instance : DecidableRel keyLe := fun a b => by unfold keyLe; infer_instance

/-- Transfer exclusion, month window selection (`unique_months[-k:]` — for
`k = 0` Python's `[-0:]` is the whole list), and the row filter to the window. -/
def windowRows (rows : List FRow) (k : Nat) : List FRow :=
  let nonTransfer := rows.filter (fun r => r.category ≠ "Transfer")
  let monthsSorted := List.insertionSort (· ≤ ·) (uniqueFirst (nonTransfer.map (·.ym)))
  let recent := if k = 0 then monthsSorted else monthsSorted.drop (monthsSorted.length - k)
  nonTransfer.filter (fun r => recent.contains r.ym)

/-- Sorted distinct (category, month) keys of the window (pandas `groupby`
sorts group keys). -/
def groupKeys (w : List FRow) : List (String × Nat) :=
  List.insertionSort keyLe (uniqueFirst (w.map (fun r => (r.category, r.ym))))

/-- Pandas `groupby(["category", "year_month"])["amount_spend"].sum()`. -/
def groupSum (w : List FRow) : List ((String × Nat) × ℚ) :=
  (groupKeys w).map
    (fun key =>
      (key, ((w.filter (fun r => r.category = key.1 && r.ym = key.2)).map (·.amount_spend)).sum))

/-- Pandas linear-interpolation quantile at `k/4` of an already sorted list
(`Series.quantile(0.25)` / `quantile(0.75)`). -/
def quarterPoint (sd : List ℚ) (k : Nat) : ℚ :=
  let m := sd.length - 1
  let i := k * m / 4
  let r := k * m % 4
  sd.getD i 0 + (r : ℚ) / 4 * (sd.getD (i + 1) 0 - sd.getD i 0)

/-- Function `remove_outliers` (forecast.py lines 7-20): below 4 points return the data
unchanged, otherwise keep the values inside `[Q1 - mult*IQR, Q3 + mult*IQR]`. -/
def removeOutliers (data : List ℚ) (multiplier : ℚ) : List ℚ :=
  if data.length < 4 then data
  else
    let sd := List.insertionSort (· ≤ ·) data
    let q1 := quarterPoint sd 1
    let q3 := quarterPoint sd 3
    let iqr := q3 - q1
    let lower := q1 - multiplier * iqr
    let upper := q3 + multiplier * iqr
    data.filter (fun x => lower ≤ x && x ≤ upper)

/-- Lines 59-61: the outlier-trimmed series, falling back to the untrimmed
series when trimming removed everything. -/
def statBasis (series : List ℚ) : List ℚ :=
  let c := removeOutliers series (3 / 2)
  if c.isEmpty then series else c

/-- Mean of a rational sample. -/
def meanQ (l : List ℚ) : ℚ := l.sum / l.length

/-- Sample variance (`Series.std` squared): `0` below two points. -/
def sampleVarQ (l : List ℚ) : ℚ :=
  if 1 < l.length then (l.map (fun x => (x - meanQ l) ^ 2)).sum / ((l.length : ℚ) - 1) else 0

/-- Series minimum (pandas `.min()`; default `0` unreachable on the nonempty
series the engine builds). -/
def minQ : List ℚ → ℚ
  | [] => 0
  | x :: xs => xs.foldl min x

/-- Series maximum. -/
def maxQ : List ℚ → ℚ
  | [] => 0
  | x :: xs => xs.foldl max x

/-- One per-category forecast record (lines 69-78). -/
structure ForecastRec where
  category : String
  avg_spend : ℚ
  var_spend : ℚ
  min_spend : ℚ
  max_spend : ℚ
  num_months : Nat
deriving DecidableEq, Repr

/-- The statistics of one category over its monthly totals. -/
def statRec (monthly : List ((String × Nat) × ℚ)) (cat : String) : ForecastRec :=
  let series := (monthly.filter (fun g => g.1.1 = cat)).map (·.2)
  let basis := statBasis series
  { category := cat, avg_spend := meanQ basis, var_spend := sampleVarQ basis,
    min_spend := minQ basis, max_spend := maxQ basis, num_months := basis.length }

/-- The per-category records in group order, before the final sort (the loop of
lines 54-78: `monthly_by_cat["category"].unique()` walks categories in
first-appearance order of the sorted groups). -/
def forecastRecords (rows : List FRow) (k : Nat) : List ForecastRec :=
  let monthly := groupSum (windowRows rows k)
  (uniqueFirst (monthly.map (·.1.1))).map (statRec monthly)

/-- Descending order on `avg_spend` (`sort_values("avg_spend", ascending=False)`). -/
def avgGe (a b : ForecastRec) : Prop := b.avg_spend ≤ a.avg_spend

instance : DecidableRel avgGe := fun a b => by unfold avgGe; infer_instance

instance : IsTotal ForecastRec avgGe := ⟨fun a b => le_total b.avg_spend a.avg_spend⟩

instance : IsTrans ForecastRec avgGe := ⟨fun _ _ _ h1 h2 => le_trans h2 h1⟩

/-- Function `forecast_by_category` (lines 23-81): early returns on an empty batch, an
empty month list, or an empty window, then per-category statistics sorted by
descending average spend. -/
def forecastByCategory (rows : List FRow) (k : Nat) : List ForecastRec :=
  if rows.isEmpty then []
  else
    let nonTransfer := rows.filter (fun r => r.category ≠ "Transfer")
    let monthsSorted := List.insertionSort (· ≤ ·) (uniqueFirst (nonTransfer.map (·.ym)))
    if monthsSorted.isEmpty then []
    else if (windowRows rows k).isEmpty then []
    else List.insertionSort avgGe (forecastRecords rows k)

/-- Whether a computation succeeded (no exception raised). -/
def exOk {β : Type} : Except String β → Bool
  | .ok _ => true
  | .error _ => false

/-! ## Concrete inputs used by the verification -/

/-- Four monthly totals of one category, the spec's IQR scenario. -/
def c3Rows : List FRow :=
  [⟨"Groceries", 1, 800⟩, ⟨"Groceries", 2, 820⟩, ⟨"Groceries", 3, 810⟩, ⟨"Groceries", 4, 5000⟩]

/-- Two categories whose alphabetical (group) order differs from their
descending-average order. -/
def c8Rows : List FRow := [⟨"Aaa", 1, 100⟩, ⟨"Bbb", 1, 500⟩]

/-- A batch with all mandatory columns but one row whose `date` cell is NaN
(`NaT` after `pd.to_datetime`). -/
def badDateBatch : Batch :=
  ⟨["date", "description", "amount_spend", "amount_signed"],
   [[("date", .nan), ("description", .str "starbucks store 123"),
     ("amount_spend", .num 5), ("amount_signed", .num (-5))]]⟩

/-- A well-formed batch: mandatory columns present, parseable dates and
amounts. -/
def goodBatch : Batch :=
  ⟨["date", "description", "amount_spend", "amount_signed"],
   [[("date", .str "2024-03-05"), ("description", .str "STARBUCKS STORE 123"),
     ("amount_spend", .num 6), ("amount_signed", .num (-6))],
    [("date", .str "2024-03-07"), ("description", .str "PAYCHECK"),
     ("amount_spend", .num 0), ("amount_signed", .num 1200)]]⟩

/-- A batch missing the `amount_signed` column. -/
def missingColBatch : Batch :=
  ⟨["date", "description", "amount_spend"],
   [[("date", .str "2024-03-05"), ("description", .str "STARBUCKS"),
     ("amount_spend", .num 6)]]⟩

/-!
# Theorems

One theorem per claim of the specification review, with shared helper lemmas.
-/

/-- C1: a transaction with positive signed amount is always excluded as a
credit, whatever the override maps, bank category, or description contain. -/
theorem credit_always_excludes (row : Row) (oneOffMap merchantMap : List (String × String))
    (a : ℚ) (ham : row.amount_signed = .num a) (ha : 0 < a) :
    decideCategory row oneOffMap merchantMap = ("EXCLUDE", "credit") := by
  have hne : a ≠ 0 := ne_of_gt ha
  simp [decideCategory, ham, pyOr, pyTruthy, hne, pyFloat, floatGt0, ha]

/-- Witness for C1 at a concrete transaction with overrides present for both
its id and its merchant. -/
theorem credit_always_excludes_witness :
    decideCategory ⟨"w1", .num 1200, "acme", "Dining", "paycheck acme"⟩
      [("w1", "Travel")] [("acme", "Shopping")] = ("EXCLUDE", "credit") :=
  credit_always_excludes _ _ _ 1200 rfl (by norm_num)

/-- C2: for a non-credit transaction, a one-off override on its `txn_id` beats
every later layer (merchant override, bank category, keyword, fuzzy). -/
theorem one_off_override_wins (row : Row) (oneOffMap merchantMap : List (String × String))
    (a : ℚ) (cat : String) (ham : row.amount_signed = .num a) (ha : a ≤ 0)
    (hl : lookupList oneOffMap row.txn_id = some cat) :
    decideCategory row oneOffMap merchantMap = (cat, "one_off") := by
  have hng : ¬(0 < a) := not_lt.mpr ha
  by_cases h0 : a = 0 <;>
    simp [decideCategory, ham, pyOr, pyTruthy, h0, pyFloat, floatGt0, hng, hl]

/-- Witness for C2: the one-off override beats a matching merchant override, a
non-empty bank category, and a keyword match. -/
theorem one_off_override_wins_witness :
    decideCategory ⟨"w2", .num (-40), "starbucks store", "Dining", "starbucks store 5"⟩
      [("w2", "Travel")] [("starbucks", "Shopping")] = ("Travel", "one_off") :=
  one_off_override_wins _ _ _ (-40) "Travel" rfl (by norm_num) rfl

/-- C10: a merchant override whose mapped category is the empty (falsy) string
does not fire: the decision is the same as with no merchant overrides at all. -/
theorem falsy_merchant_override_skipped (row : Row)
    (oneOffMap merchantMap : List (String × String)) (a : ℚ)
    (ham : row.amount_signed = .num a) (ha : a ≤ 0)
    (hone : lookupList oneOffMap row.txn_id = Option.none)
    (hm : checkMerchantOverride row.merchant merchantMap = some "") :
    decideCategory row oneOffMap merchantMap = decideCategory row oneOffMap [] := by
  have hng : ¬(0 < a) := not_lt.mpr ha
  have hempty : checkMerchantOverride row.merchant [] = Option.none := rfl
  by_cases h0 : a = 0 <;>
    simp [decideCategory, ham, pyOr, pyTruthy, h0, pyFloat, floatGt0, hng, hone, hm, hempty]

/-- Witness for C10: an override mapping "starbucks" to `""` is skipped and the
keyword layer decides, exactly as with an empty override map. -/
theorem falsy_merchant_override_skipped_witness :
    decideCategory ⟨"w10", .num (-5), "starbucks seattle", "", "starbucks seattle 4"⟩
      [] [("starbucks", "")] =
      decideCategory ⟨"w10", .num (-5), "starbucks seattle", "", "starbucks seattle 4"⟩ [] [] :=
  falsy_merchant_override_skipped _ _ _ (-5) rfl (by norm_num) rfl rfl

/-- Counterexample to C7: a non-credit transaction with no overrides and the
non-empty bank category "Health" is not given its bank category — the engine
rewrites it. -/
theorem bank_health_cx :
    decideCategory ⟨"cx7", .num (-12), "rite aid", "Health", "rite aid pharmacy"⟩ [] [] ≠
      ("Health", "bank") := by decide

/-- C7 as amended: with `amount_signed ≤ 0`, no one-off hit, no (truthy)
merchant-override hit, and a non-empty `bank_category_clean`, the category is
the bank category with source "bank" — except that a bank category whose
lowercase form is "health" is remapped to "Groceries". -/
theorem bank_category_layer (row : Row) (oneOffMap merchantMap : List (String × String))
    (a : ℚ) (ham : row.amount_signed = .num a) (ha : a ≤ 0)
    (hone : lookupList oneOffMap row.txn_id = Option.none)
    (hm : checkMerchantOverride row.merchant merchantMap = Option.none ∨
          checkMerchantOverride row.merchant merchantMap = some "")
    (hb : row.bank_category_clean ≠ "") :
    decideCategory row oneOffMap merchantMap =
      ((if pyLower row.bank_category_clean = "health" then "Groceries"
        else row.bank_category_clean), "bank") := by
  have hng : ¬(0 < a) := not_lt.mpr ha
  rcases hm with hm | hm <;> by_cases h0 : a = 0 <;>
    simp [decideCategory, decideFromBank, ham, pyOr, pyTruthy, h0, pyFloat, floatGt0, hng,
      hone, hm, hb]

/-- Witness for the amended C7 at a bank category other than "Health" and at
"Health" itself. -/
theorem bank_category_layer_witness :
    decideCategory ⟨"w7", .num (-3), "local shop", "Crafts", "local shop 9"⟩ [] [] =
      ("Crafts", "bank") := by
  have h := bank_category_layer ⟨"w7", .num (-3), "local shop", "Crafts", "local shop 9"⟩
    [] [] (-3) rfl (by norm_num) rfl (Or.inl rfl) (by decide)
  simpa using h

/-- Counterexample to C6: `clean_string` of NaN is not the empty string. -/
theorem clean_string_nan_cx : cleanStringVal .nan ≠ "" := by decide

/-- C6 as amended: a missing/NaN input is first rendered by `str(...)`, so
`clean_string` returns "nan" for NaN and "none" for `None`, not `""`. -/
theorem clean_string_nan_value :
    cleanStringVal .nan = "nan" ∧ cleanStringVal .none = "none" := by decide

/-- C3: on monthly totals 800, 820, 810, 5000 with a 4-month lookback the IQR
rule trims exactly the 5000 outlier and the per-category forecast reports an
average of 810 over 3 retained months. -/
theorem iqr_trim_scenario :
    removeOutliers [800, 820, 810, 5000] (3 / 2) = [800, 820, 810] ∧
    (forecastByCategory c3Rows 4).map (fun r => (r.category, r.avg_spend, r.num_months)) =
      [("Groceries", 810, 3)] := by
  constructor
  · norm_num [removeOutliers, quarterPoint, List.insertionSort, List.orderedInsert,
      List.filter, List.getD]
  · norm_num +decide [forecastByCategory, c3Rows, windowRows, groupKeys, groupSum,
      uniqueFirst, forecastRecords, statRec, statBasis, List.insertionSort,
      List.orderedInsert, List.filter, keyLe, removeOutliers, quarterPoint, meanQ,
      List.getD, List.drop]

/-! ### C9: structural errors versus row-level errors in `categorize` -/

/-- Every error of `make_txn_id` comes from the date or float conversion and is
distinct from the structural missing-column error. -/
theorem makeTxnId_error_ne_structural (d a ds : PyVal) :
    makeTxnId d a ds ≠ .error "missing required columns - run clean first" := by
  intro h
  unfold makeTxnId at h
  split at h
  · rename_i e he
    cases h
    cases d with
    | num q => simp [parseDate?] at he
    | none => simp [parseDate?] at he
    | nan => simp [parseDate?] at he
    | str s =>
        simp only [parseDate?] at he
        split at he
        · split at he
          · split at he
            · exact Except.noConfusion he
            · injection he with h'
              exact absurd h' (by decide)
          · injection he with h'
            exact absurd h' (by decide)
        · injection he with h'
          exact absurd h' (by decide)
  · split at h
    · rename_i e he
      cases h
      cases a with
      | num q => simp [pyFloat] at he
      | nan => simp [pyFloat] at he
      | none =>
          simp only [pyFloat] at he
          injection he with h'
          exact absurd h' (by decide)
      | str s =>
          simp only [pyFloat] at he
          split at he
          · exact Except.noConfusion he
          · injection he with h'
            exact absurd h' (by decide)
    · exact Except.noConfusion h

/-- An error of the row traversal is the error of some row. -/
theorem exceptMap_error_mem {α β : Type} (f : α → Except String β) (l : List α) (e : String)
    (h : exceptMap f l = .error e) : ∃ x ∈ l, f x = .error e := by
  induction l with
  | nil => simp [exceptMap] at h
  | cons x xs ih =>
      simp only [exceptMap] at h
      split at h
      · rename_i e' hx
        cases h
        exact ⟨x, by simp, hx⟩
      · split at h
        · rename_i hy e' hrec
          cases h
          obtain ⟨z, hz, hfz⟩ := ih hrec
          exact ⟨z, by simp [hz], hfz⟩
        · exact absurd h (by simp)

/-- If every row maps successfully, the traversal succeeds. -/
theorem exceptMap_ok {α β : Type} (f : α → Except String β) (l : List α)
    (h : ∀ x ∈ l, exOk (f x) = true) : exOk (exceptMap f l) = true := by
  induction l with
  | nil => rfl
  | cons x xs ih =>
      have hx := h x (by simp)
      simp only [exceptMap]
      split
      · rename_i e hfx
        rw [hfx] at hx
        exact absurd hx (by simp [exOk])
      · split
        · rename_i y hy e hrec
          have := ih (fun z hz => h z (by simp [hz]))
          rw [hrec] at this
          exact absurd this (by simp [exOk])
        · rfl

/-- Counterexample to C9: a batch with all four mandatory columns but a NaN
`date` cell still raises — the error is row-level (`make_txn_id`), not the
structural missing-column error. -/
theorem categorize_rowlevel_raises_cx :
    MANDATORY_COLS.all (badDateBatch.cols.contains ·) = true ∧
    exOk (categorize badDateBatch [] []) = false ∧
    categorize badDateBatch [] [] ≠ .error "missing required columns - run clean first" := by
  refine ⟨rfl, rfl, ?_⟩
  intro h
  rw [show categorize badDateBatch [] [] =
      Except.error "ValueError: NaTType does not support strftime" from rfl] at h
  injection h with h'
  exact absurd h' (by decide)

/-- C9 as amended: `categorize` raises the structural missing-column error if
and only if a mandatory column is absent (the check runs before any per-row
work, so broken rows cannot preempt it); with all four columns present it
never raises the structural error, and it succeeds whenever every row's date
and `amount_signed` convert in `make_txn_id` — but such row-level conversion
failures do raise, contrary to the original claim. -/
theorem categorize_structural_error (b : Batch) (mm om : List (String × String)) :
    (¬ MANDATORY_COLS.all (b.cols.contains ·) = true →
        categorize b mm om = .error "missing required columns - run clean first") ∧
    (MANDATORY_COLS.all (b.cols.contains ·) = true →
        categorize b mm om ≠ .error "missing required columns - run clean first") ∧
    (MANDATORY_COLS.all (b.cols.contains ·) = true →
        (∀ r ∈ b.rows,
          exOk (makeTxnId (rowGet r "date") (rowGet r "amount_signed")
            (rowGet r "description")) = true) →
        exOk (categorize b mm om) = true) := by
  refine ⟨?_, ?_, ?_⟩
  · intro hmiss
    have hf : (!MANDATORY_COLS.all (b.cols.contains ·)) = true := by
      revert hmiss
      cases MANDATORY_COLS.all (b.cols.contains ·) <;> simp
    unfold categorize
    rw [hf]
    simp
  · intro hall hcontra
    have hf : (!MANDATORY_COLS.all (b.cols.contains ·)) = false := by rw [hall]; rfl
    unfold categorize at hcontra
    rw [hf] at hcontra
    simp only [Bool.false_eq_true, if_false] at hcontra
    obtain ⟨r, _, hfr⟩ := exceptMap_error_mem _ _ _ hcontra
    revert hfr
    split
    · rename_i e he
      intro hfr
      cases hfr
      exact makeTxnId_error_ne_structural _ _ _ he
    · intro hfr
      exact Except.noConfusion hfr
  · intro hall hrows
    have hf : (!MANDATORY_COLS.all (b.cols.contains ·)) = false := by rw [hall]; rfl
    unfold categorize
    rw [hf]
    simp only [Bool.false_eq_true, if_false]
    apply exceptMap_ok
    intro r hr
    have hok := hrows r hr
    split
    · rename_i e he
      rw [he] at hok
      exact absurd hok (by simp [exOk])
    · rfl

/-- Witness for the amended C9: a well-formed two-row batch categorizes without
raising. -/
theorem categorize_structural_error_witness : exOk (categorize goodBatch [] []) = true := by
  refine (categorize_structural_error goodBatch [] []).2.2 (by decide) ?_
  intro r hr
  simp only [goodBatch, List.mem_cons, List.not_mem_nil, or_false] at hr
  rcases hr with rfl | rfl <;> decide

/-! ### C8: one record per category, but sorted by the engine -/

/-- First-occurrence deduplication keeps exactly the members of the list. -/
theorem uniqueFirst_mem {α : Type} [DecidableEq α] (x : α) (l : List α) :
    x ∈ uniqueFirst l ↔ x ∈ l := by
  induction l using uniqueFirst.induct with
  | case1 => simp [uniqueFirst]
  | case2 a l ih =>
      simp only [uniqueFirst, List.mem_cons, ih, List.mem_filter]
      by_cases hxa : x = a <;> simp [hxa]

/-- First-occurrence deduplication has no duplicates. -/
theorem uniqueFirst_nodup {α : Type} [DecidableEq α] (l : List α) :
    (uniqueFirst l).Nodup := by
  induction l using uniqueFirst.induct with
  | case1 => simp [uniqueFirst]
  | case2 a l ih =>
      simp only [uniqueFirst, List.nodup_cons]
      refine ⟨?_, ih⟩
      rw [uniqueFirst_mem]
      simp

/-- The records before the final sort carry exactly the deduplicated group
categories. -/
theorem forecastRecords_map_category (rows : List FRow) (k : Nat) :
    (forecastRecords rows k).map (·.category) =
      uniqueFirst ((groupSum (windowRows rows k)).map (·.1.1)) := by
  simp only [forecastRecords, List.map_map]
  exact (List.map_congr_left (fun c _ => rfl)).trans (List.map_id _)

/-- A category appears among the group keys exactly when some window row has
it. -/
theorem groupSum_category_mem (rows : List FRow) (k : Nat) (c : String) :
    (c ∈ (groupSum (windowRows rows k)).map (·.1.1)) ↔
      ∃ r ∈ windowRows rows k, r.category = c := by
  unfold groupSum groupKeys
  rw [List.map_map]
  simp only [Function.comp, List.mem_map, List.mem_insertionSort, uniqueFirst_mem]
  constructor
  · rintro ⟨key, ⟨r, hr, rfl⟩, rfl⟩
    exact ⟨r, hr, rfl⟩
  · rintro ⟨r, hr, rfl⟩
    exact ⟨(r.category, r.ym), ⟨r, hr, rfl⟩, rfl⟩

/-- An empty sorted month list forces an empty window. -/
theorem window_empty_of_months_empty (rows : List FRow) (k : Nat)
    (hm : List.insertionSort (· ≤ ·)
      (uniqueFirst ((rows.filter (fun r => r.category ≠ "Transfer")).map (·.ym))) = []) :
    windowRows rows k = [] := by
  simp only [windowRows]
  rw [hm]
  simp [List.filter_eq_nil_iff]

/-- With a non-empty window, the engine output is exactly the sorted records. -/
theorem forecastByCategory_eq_sort (rows : List FRow) (k : Nat)
    (hw : windowRows rows k ≠ []) :
    forecastByCategory rows k = List.insertionSort avgGe (forecastRecords rows k) := by
  have h1 : rows.isEmpty = false := by
    cases rows with
    | nil => exact absurd rfl hw
    | cons a l => rfl
  have h2 : (List.insertionSort (· ≤ ·)
      (uniqueFirst ((rows.filter (fun r => r.category ≠ "Transfer")).map (·.ym)))).isEmpty
        = false := by
    rcases hms : List.insertionSort (· ≤ ·)
        (uniqueFirst ((rows.filter (fun r => r.category ≠ "Transfer")).map (·.ym))) with
      _ | ⟨m, ms⟩
    · exact absurd (window_empty_of_months_empty rows k hms) hw
    · rw [hms]
      rfl
  have h3 : (windowRows rows k).isEmpty = false := by
    rcases hwe : windowRows rows k with _ | ⟨r, rs⟩
    · exact absurd hwe hw
    · rfl
  simp only [forecastByCategory, h1, h2, h3, Bool.false_eq_true, if_false]

/-- Counterexample to C8: the engine itself orders the records — on two
categories whose group order is Aaa before Bbb, the output comes back Bbb
before Aaa (descending average spend), so the output differs from the
unsorted per-category records. -/
theorem forecast_sorted_cx :
    (forecastByCategory c8Rows 3).map (·.category) = ["Bbb", "Aaa"] ∧
    (forecastRecords c8Rows 3).map (·.category) = ["Aaa", "Bbb"] ∧
    forecastByCategory c8Rows 3 ≠ forecastRecords c8Rows 3 := by
  have h1 : (forecastByCategory c8Rows 3).map (·.category) = ["Bbb", "Aaa"] := by
    norm_num +decide [forecastByCategory, c8Rows, windowRows, groupKeys, groupSum,
      uniqueFirst, forecastRecords, statRec, statBasis, List.insertionSort,
      List.orderedInsert, List.filter, keyLe, avgGe, removeOutliers, meanQ, List.drop]
  have h2 : (forecastRecords c8Rows 3).map (·.category) = ["Aaa", "Bbb"] := by
    norm_num +decide [c8Rows, windowRows, groupKeys, groupSum, uniqueFirst,
      forecastRecords, statRec, statBasis, List.insertionSort, List.orderedInsert,
      List.filter, keyLe, removeOutliers, meanQ, List.drop]
  refine ⟨h1, h2, fun h => ?_⟩
  rw [h, h2] at h1
  exact absurd h1 (by decide)

/-- C8 as amended: the engine emits exactly one record per category present in
the lookback window, and it does order them itself — the output is sorted by
descending `avg_spend` (`sort_values("avg_spend", ascending=False)`), not left
in group order for the presentation layer. -/
theorem forecast_one_sorted_record_per_category (rows : List FRow) (k : Nat) :
    List.Sorted avgGe (forecastByCategory rows k) ∧
    ((forecastByCategory rows k).map (·.category)).Nodup ∧
    (∀ c : String,
      (∃ rec ∈ forecastByCategory rows k, rec.category = c) ↔
      (∃ r ∈ windowRows rows k, r.category = c)) := by
  by_cases hw : windowRows rows k = []
  · have hw' : (windowRows rows k).isEmpty = true := by rw [hw]; rfl
    have hout : forecastByCategory rows k = [] := by
      simp [forecastByCategory, hw', ite_self]
    rw [hout, hw]
    simp
  · have heq := forecastByCategory_eq_sort rows k hw
    have hperm := List.perm_insertionSort avgGe (forecastRecords rows k)
    refine ⟨?_, ?_, ?_⟩
    · rw [heq]
      exact List.sorted_insertionSort avgGe _
    · rw [heq]
      rw [(hperm.map (·.category)).nodup_iff, forecastRecords_map_category]
      exact uniqueFirst_nodup _
    · intro c
      rw [heq]
      have hmem : ∀ rec : ForecastRec,
          rec ∈ List.insertionSort avgGe (forecastRecords rows k) ↔
            rec ∈ forecastRecords rows k :=
        fun rec => List.mem_insertionSort avgGe
      constructor
      · rintro ⟨rec, hrec, rfl⟩
        have : rec.category ∈ (forecastRecords rows k).map (·.category) :=
          List.mem_map.mpr ⟨rec, (hmem rec).mp hrec, rfl⟩
        rw [forecastRecords_map_category, uniqueFirst_mem] at this
        exact (groupSum_category_mem rows k _).mp this
      · intro hr
        have : c ∈ (forecastRecords rows k).map (·.category) := by
          rw [forecastRecords_map_category, uniqueFirst_mem]
          exact (groupSum_category_mem rows k c).mpr hr
        obtain ⟨rec, hrec, hc⟩ := List.mem_map.mp this
        exact ⟨rec, (hmem rec).mpr hrec, hc⟩

/-- Witness for the amended C8 at the concrete two-category batch. -/
theorem forecast_one_sorted_record_per_category_witness :
    List.Sorted avgGe (forecastByCategory c8Rows 3) :=
  (forecast_one_sorted_record_per_category c8Rows 3).1

/-! ### C4: outlier removal never empties a non-empty series -/

/-- Indexing into a `≤`-sorted rational list is monotone. -/
theorem sorted_getD_le (l : List ℚ) (hs : List.Sorted (· ≤ ·) l) (i j : Nat)
    (hij : i ≤ j) (hj : j < l.length) : l.getD i 0 ≤ l.getD j 0 := by
  have hi : i < l.length := lt_of_le_of_lt hij hj
  rw [List.getD_eq_get l 0 hi, List.getD_eq_get l 0 hj]
  rcases lt_or_eq_of_le hij with hlt | heq
  · exact List.pairwise_iff_get.mp hs ⟨i, hi⟩ ⟨j, hj⟩ hlt
  · cases heq
    exact le_refl _

/-- A valid index yields a member of the list. -/
theorem getD_mem_self (l : List ℚ) (i : Nat) (h : i < l.length) : l.getD i 0 ∈ l := by
  rw [List.getD_eq_get l 0 h]
  exact List.get_mem l i h

/-- In a sample of at least four points some element lies between the
interpolated first and third quartiles — the kernel of the non-emptiness of
IQR filtering. -/
theorem exists_mid_element (data : List ℚ) (h4 : 4 ≤ data.length) :
    ∃ x ∈ data,
      quarterPoint (List.insertionSort (· ≤ ·) data) 1 ≤ x ∧
      x ≤ quarterPoint (List.insertionSort (· ≤ ·) data) 3 := by
  have hperm := List.perm_insertionSort (· ≤ ·) data
  have hsort : List.Sorted (· ≤ ·) (List.insertionSort (· ≤ ·) data) :=
    List.sorted_insertionSort (· ≤ ·) data
  set sd := List.insertionSort (· ≤ ·) data with hsdd
  have hlen : sd.length = data.length := hperm.length_eq
  set m := sd.length - 1 with hm
  have hq1 : quarterPoint sd 1 =
      sd.getD (m / 4) 0 +
        ((m % 4 : ℕ) : ℚ) / 4 * (sd.getD (m / 4 + 1) 0 - sd.getD (m / 4) 0) := by
    simp only [quarterPoint, one_mul, ← hm]
  have hq3 : quarterPoint sd 3 =
      sd.getD (3 * m / 4) 0 +
        ((3 * m % 4 : ℕ) : ℚ) / 4 *
          (sd.getD (3 * m / 4 + 1) 0 - sd.getD (3 * m / 4) 0) := by
    simp only [quarterPoint, ← hm]
  set j := (m + 3) / 4 with hj
  have hjm : j ≤ 3 * m / 4 := by omega
  have hjlt : j < sd.length := by omega
  refine ⟨sd.getD j 0, hperm.mem_iff.mp (getD_mem_self sd j hjlt), ?_, ?_⟩
  · rw [hq1]
    by_cases hr1 : m % 4 = 0
    · have hjj : j = m / 4 := by omega
      rw [hr1, hjj]
      simp
    · have hjj : j = m / 4 + 1 := by omega
      have hlt1 : m / 4 + 1 < sd.length := by omega
      have hA : sd.getD (m / 4) 0 ≤ sd.getD (m / 4 + 1) 0 :=
        sorted_getD_le sd hsort _ _ (Nat.le_succ _) hlt1
      have ht0 : (0 : ℚ) ≤ ((m % 4 : ℕ) : ℚ) / 4 := by positivity
      have ht1 : ((m % 4 : ℕ) : ℚ) / 4 ≤ 1 := by
        have hb : (m % 4 : ℕ) ≤ 3 := by omega
        have hb' : ((m % 4 : ℕ) : ℚ) ≤ 3 := by exact_mod_cast hb
        linarith
      rw [hjj]
      nlinarith [hA, ht0, ht1]
  · rw [hq3]
    have hi3lt : 3 * m / 4 < sd.length := by omega
    have hC : sd.getD j 0 ≤ sd.getD (3 * m / 4) 0 := sorted_getD_le sd hsort _ _ hjm hi3lt
    by_cases hr3 : 3 * m % 4 = 0
    · rw [hr3]
      simpa using hC
    · have hlt3 : 3 * m / 4 + 1 < sd.length := by omega
      have hD : sd.getD (3 * m / 4) 0 ≤ sd.getD (3 * m / 4 + 1) 0 :=
        sorted_getD_le sd hsort _ _ (Nat.le_succ _) hlt3
      have ht0 : (0 : ℚ) ≤ ((3 * m % 4 : ℕ) : ℚ) / 4 := by positivity
      nlinarith [hC, hD, ht0]

/-- C4: on a non-empty series, `remove_outliers` returns it unchanged below
four points, never returns an empty series (the interpolated quartile band
always retains a middle element), and the forecast basis of lines 59-61 is
never empty either. -/
theorem remove_outliers_never_empties (data : List ℚ) (hne : data ≠ []) :
    (data.length < 4 → removeOutliers data (3 / 2) = data) ∧
    removeOutliers data (3 / 2) ≠ [] ∧ statBasis data ≠ [] := by
  have hsmall : data.length < 4 → removeOutliers data (3 / 2) = data := by
    intro h
    unfold removeOutliers
    rw [if_pos h]
  have hmain : removeOutliers data (3 / 2) ≠ [] := by
    by_cases h : data.length < 4
    · rw [hsmall h]
      exact hne
    · have h4 : 4 ≤ data.length := by omega
      obtain ⟨x, hx, hq1, hq3⟩ := exists_mid_element data h4
      intro hcontra
      unfold removeOutliers at hcontra
      rw [if_neg h] at hcontra
      simp only [List.filter_eq_nil_iff, Bool.and_eq_true, decide_eq_true_eq, not_and,
        not_le] at hcontra
      have hxf := hcontra x hx
      have hq13 : quarterPoint (List.insertionSort (· ≤ ·) data) 1 ≤
          quarterPoint (List.insertionSort (· ≤ ·) data) 3 := le_trans hq1 hq3
      exact absurd (hxf (by linarith)) (by linarith)
  have hbasis : statBasis data ≠ [] := by
    unfold statBasis
    simp only
    split
    · exact hne
    · rename_i hf
      exact fun hcontra => hmain (by rw [hcontra] at hf; exact absurd hf (by simp))
  exact ⟨hsmall, hmain, hbasis⟩

/-- Witness for C4 at the four-point series of the IQR scenario. -/
theorem remove_outliers_never_empties_witness :
    removeOutliers [800, 820, 810, 5000] (3 / 2) ≠ [] :=
  (remove_outliers_never_empties [800, 820, 810, 5000] (by simp)).2.1

/-! ### C5: `clean_string` is not idempotent, but stabilizes after two passes

Deleting characters (`[^\w\s+]` removal) or collapsing separators can expose
leading/trailing whitespace, which only the *next* application's `strip`
removes — so one application is not idempotent.  A second application yields a
true fixed point. -/

/-- The 26 lowercase letters, the image of the uppercase branch of
`pyLowerChar`. -/
def lowerLetters : List Char :=
  ['a', 'b', 'c', 'd', 'e', 'f', 'g', 'h', 'i', 'j', 'k', 'l', 'm',
   'n', 'o', 'p', 'q', 'r', 's', 't', 'u', 'v', 'w', 'x', 'y', 'z']

/-- The map `pyLowerChar` either fixes its argument or produces a lowercase letter. -/
theorem pyLowerChar_cases (c : Char) :
    pyLowerChar c = c ∨ pyLowerChar c ∈ lowerLetters := by
  unfold pyLowerChar
  split
  all_goals first | (left; rfl) | (right; decide)

/-- Lowercase letters are fixed by `pyLowerChar`. -/
theorem lower_fixed (c : Char) (h : c ∈ lowerLetters) : pyLowerChar c = c := by
  fin_cases h <;> rfl

/-- The map `pyLowerChar` is idempotent. -/
theorem pyLowerChar_idem (c : Char) : pyLowerChar (pyLowerChar c) = pyLowerChar c := by
  rcases pyLowerChar_cases c with h | h
  · rw [h]
    exact h
  · exact lower_fixed _ h

/-- Whitespace characters are separator characters. -/
theorem sep_of_space (c : Char) (h : isPySpace c = true) : isSep c = true := by
  simp [isSep, h]

/-- Separator-run collapsing maps a non-empty list to a non-empty list. -/
theorem collapseSeps_ne_nil {l : List Char} (h : l ≠ []) : collapseSeps l ≠ [] := by
  induction l using collapseSeps.induct with
  | case1 => exact absurd rfl h
  | case2 c hc => simp [collapseSeps, hc]
  | case3 c hc => simp [collapseSeps, hc]
  | case4 c d cs hcd ih => simpa [collapseSeps, hcd] using ih (by simp)
  | case5 c d cs hcd ih => simp [collapseSeps, hcd]

/-- Any separator character surviving the collapse is the single space. -/
theorem collapseSeps_sep_space (l : List Char) :
    ∀ x ∈ collapseSeps l, isSep x = true → x = ' ' := by
  induction l using collapseSeps.induct with
  | case1 => simp [collapseSeps]
  | case2 c hc => simp [collapseSeps, hc]
  | case3 c hc =>
      intro x hx hsx
      rw [show collapseSeps [c] = [c] by simp [collapseSeps, hc]] at hx
      rw [List.mem_singleton] at hx
      subst hx
      exact absurd hsx hc
  | case4 c d cs hcd ih => simpa [collapseSeps, hcd] using ih
  | case5 c d cs hcd ih =>
      simp only [collapseSeps, hcd, if_false]
      intro x hx hsx
      rcases List.mem_cons.mp hx with rfl | hx'
      · by_cases hc : isSep c = true
        · simp [hc]
        · rw [if_neg hc] at hsx
          exact absurd hsx hc
      · exact ih x hx' hsx

/-- Every character of the collapse is a space or a character of the input. -/
theorem collapseSeps_subset (l : List Char) :
    ∀ x ∈ collapseSeps l, x = ' ' ∨ x ∈ l := by
  induction l using collapseSeps.induct with
  | case1 => simp [collapseSeps]
  | case2 c hc => simp [collapseSeps, hc]
  | case3 c hc => simp [collapseSeps, hc]
  | case4 c d cs hcd ih =>
      intro x hx
      rw [show collapseSeps (c :: d :: cs) = collapseSeps (d :: cs) by
        simp [collapseSeps, hcd]] at hx
      rcases ih x hx with h | h
      · exact Or.inl h
      · exact Or.inr (List.mem_cons_of_mem c h)
  | case5 c d cs hcd ih =>
      intro x hx
      rw [show collapseSeps (c :: d :: cs) =
          (if isSep c then ' ' else c) :: collapseSeps (d :: cs) by
        simp [collapseSeps, hcd]] at hx
      rcases List.mem_cons.mp hx with rfl | hx'
      · by_cases hc : isSep c = true
        · exact Or.inl (by rw [if_pos hc])
        · refine Or.inr ?_
          rw [if_neg hc]
          exact List.mem_cons_self c _
      · rcases ih x hx' with h | h
        · exact Or.inl h
        · exact Or.inr (List.mem_cons_of_mem c h)

/-- Collapsing a list that starts with a non-separator keeps that head. -/
theorem collapseSeps_head_nonsep (d : Char) (cs : List Char) (hd : isSep d = false) :
    ∃ t, collapseSeps (d :: cs) = d :: t := by
  cases cs with
  | nil => exact ⟨[], by simp [collapseSeps, hd]⟩
  | cons e es => exact ⟨collapseSeps (e :: es), by simp [collapseSeps, hd]⟩

/-- No two adjacent characters of the collapse are both separators. -/
theorem collapseSeps_chain (l : List Char) :
    (collapseSeps l).Chain' (fun a b => ¬(isSep a = true ∧ isSep b = true)) := by
  induction l using collapseSeps.induct with
  | case1 => simp [collapseSeps]
  | case2 c hc =>
      rw [show collapseSeps [c] = [' '] by simp [collapseSeps, hc]]
      exact List.chain'_singleton _
  | case3 c hc =>
      rw [show collapseSeps [c] = [c] by simp [collapseSeps, hc]]
      exact List.chain'_singleton _
  | case4 c d cs hcd ih =>
      rw [show collapseSeps (c :: d :: cs) = collapseSeps (d :: cs) by
        simp [collapseSeps, hcd]]
      exact ih
  | case5 c d cs hcd ih =>
      rw [show collapseSeps (c :: d :: cs) =
          (if isSep c then ' ' else c) :: collapseSeps (d :: cs) by
        simp [collapseSeps, hcd]]
      rw [List.chain'_cons']
      refine ⟨?_, ih⟩
      intro y hy
      cases hd : isSep d with
      | true =>
          have hc : isSep c = false := by
            cases hcc : isSep c with
            | false => rfl
            | true => exact absurd (by rw [hcc, hd]; rfl) hcd
          rw [if_neg (by simp [hc])]
          intro hcon
          rw [hc] at hcon
          exact absurd hcon.1 (by simp)
      | false =>
          obtain ⟨t, ht⟩ := collapseSeps_head_nonsep d cs hd
          rw [ht] at hy
          simp only [List.head?_cons, Option.mem_def, Option.some.injEq] at hy
          intro hcon
          rw [← hy] at hcon
          rw [hd] at hcon
          exact absurd hcon.2 (by simp)

/-- Membership from `getLast?`. -/
theorem mem_of_getLast?_eq (l : List Char) (x : Char) (h : l.getLast? = some x) : x ∈ l := by
  obtain ⟨hne, hx⟩ := List.mem_getLast?_eq_getLast (l := l) (x := x) (by simp [h])
  rw [hx]
  exact List.getLast_mem hne

/-- If the input ends in a non-separator, so does the collapse. -/
theorem collapseSeps_getLast_nonsep (l : List Char)
    (h : ∀ y, l.getLast? = some y → isSep y = false) :
    ∀ x, (collapseSeps l).getLast? = some x → isSep x = false := by
  induction l using collapseSeps.induct with
  | case1 => intro x hx; simp [collapseSeps] at hx
  | case2 c hc =>
      intro x hx
      exact absurd (h c rfl) (by simp [hc])
  | case3 c hc =>
      intro x hx
      rw [show collapseSeps [c] = [c] by simp [collapseSeps, hc]] at hx
      simp only [List.getLast?_singleton, Option.some.injEq] at hx
      rw [← hx]
      exact h c rfl
  | case4 c d cs hcd ih =>
      intro x hx
      rw [show collapseSeps (c :: d :: cs) = collapseSeps (d :: cs) by
        simp [collapseSeps, hcd]] at hx
      exact ih (fun y hy => h y (by rw [List.getLast?_cons_cons]; exact hy)) x hx
  | case5 c d cs hcd ih =>
      intro x hx
      rw [show collapseSeps (c :: d :: cs) =
          (if isSep c then ' ' else c) :: collapseSeps (d :: cs) by
        simp [collapseSeps, hcd]] at hx
      have hne : collapseSeps (d :: cs) ≠ [] := collapseSeps_ne_nil (by simp)
      obtain ⟨r0, rs, hr⟩ : ∃ r0 rs, collapseSeps (d :: cs) = r0 :: rs := by
        cases hcc : collapseSeps (d :: cs) with
        | nil => exact absurd hcc hne
        | cons r0 rs => exact ⟨r0, rs, rfl⟩
      rw [hr, List.getLast?_cons_cons] at hx
      rw [← hr] at hx
      exact ih (fun y hy => h y (by rw [List.getLast?_cons_cons]; exact hy)) x hx

/-- Collapsing fixes a list whose separators are all single isolated spaces. -/
theorem collapseSeps_fixed (l : List Char)
    (hsep : ∀ x ∈ l, isSep x = true → x = ' ')
    (hch : l.Chain' (fun a b => ¬(isSep a = true ∧ isSep b = true))) :
    collapseSeps l = l := by
  induction l using collapseSeps.induct with
  | case1 => rfl
  | case2 c hc =>
      rw [show collapseSeps [c] = [' '] by simp [collapseSeps, hc]]
      rw [hsep c (List.mem_singleton_self c) hc]
  | case3 c hc => simp [collapseSeps, hc]
  | case4 c d cs hcd ih =>
      rw [List.chain'_cons'] at hch
      have hrel := hch.1 d (by simp)
      rw [Bool.and_eq_true] at hcd
      exact absurd ⟨hcd.1, hcd.2⟩ hrel
  | case5 c d cs hcd ih =>
      rw [show collapseSeps (c :: d :: cs) =
          (if isSep c then ' ' else c) :: collapseSeps (d :: cs) by
        simp [collapseSeps, hcd]]
      rw [List.chain'_cons'] at hch
      have htail := ih (fun x hx hsx => hsep x (List.mem_cons_of_mem c hx) hsx) hch.2
      rw [htail]
      by_cases hc : isSep c = true
      · rw [if_pos hc, hsep c (List.mem_cons_self c _) hc]
      · rw [if_neg hc]

/-- The head of `dropWhile p` never satisfies `p`. -/
theorem dropWhile_head_not (p : Char → Bool) (l : List Char) :
    ∀ x, (l.dropWhile p).head? = some x → p x = false := by
  induction l with
  | nil => intro x hx; simp at hx
  | cons c cs ih =>
      intro x hx
      rw [List.dropWhile_cons] at hx
      split at hx
      · exact ih x hx
      · simp only [List.head?_cons, Option.some.injEq] at hx
        rw [← hx]
        rename_i hpc
        cases hh : p c with
        | false => rfl
        | true => exact absurd hh hpc

/-- The function `dropWhile` fixes a list whose head does not satisfy the predicate. -/
theorem dropWhile_eq_self (p : Char → Bool) (l : List Char)
    (h : ∀ x, l.head? = some x → p x = false) : l.dropWhile p = l := by
  cases l with
  | nil => rfl
  | cons c cs =>
      rw [List.dropWhile_cons, if_neg]
      rw [h c rfl]
      simp

/-- Stripping never invents characters. -/
theorem pyStrip_subset (l : List Char) : ∀ x ∈ pyStrip l, x ∈ l := by
  intro x hx
  simp only [pyStrip, List.mem_reverse] at hx
  have h2 : x ∈ (l.dropWhile isPySpace).reverse :=
    List.Sublist.mem hx (List.dropWhile_sublist _)
  rw [List.mem_reverse] at h2
  exact List.Sublist.mem h2 (List.dropWhile_sublist _)

/-- The first character of a stripped list is not whitespace. -/
theorem pyStrip_head_not_space (l : List Char) :
    ∀ x, (pyStrip l).head? = some x → isPySpace x = false := by
  intro x hx
  unfold pyStrip at hx
  rw [List.head?_reverse] at hx
  obtain ⟨t, ht⟩ := List.dropWhile_suffix (l := (l.dropWhile isPySpace).reverse) isPySpace
  have hRne : ((l.dropWhile isPySpace).reverse.dropWhile isPySpace) ≠ [] := by
    intro h0
    rw [h0] at hx
    simp at hx
  have h1 : (l.dropWhile isPySpace).reverse.getLast? = some x := by
    rw [← ht, List.getLast?_append_of_ne_nil _ hRne]
    exact hx
  rw [List.getLast?_reverse] at h1
  exact dropWhile_head_not _ _ x h1

/-- The last character of a stripped list is not whitespace. -/
theorem pyStrip_last_not_space (l : List Char) :
    ∀ x, (pyStrip l).getLast? = some x → isPySpace x = false := by
  intro x hx
  unfold pyStrip at hx
  rw [List.getLast?_reverse] at hx
  exact dropWhile_head_not _ _ x hx

/-- Stripping fixes a list with non-whitespace ends. -/
theorem pyStrip_eq_self (l : List Char)
    (h1 : ∀ x, l.head? = some x → isPySpace x = false)
    (h2 : ∀ x, l.getLast? = some x → isPySpace x = false) : pyStrip l = l := by
  unfold pyStrip
  rw [dropWhile_eq_self _ _ h1]
  rw [dropWhile_eq_self _ _ (fun x hx => h2 x (by rwa [List.head?_reverse] at hx))]
  exact List.reverse_reverse l

/-- Separators in the image of `clean_string` are single spaces. -/
theorem cleanChars_sep_space (l : List Char) :
    ∀ c ∈ cleanChars l, isSep c = true → c = ' ' :=
  fun c hc => collapseSeps_sep_space _ c (List.mem_of_mem_filter hc)

/-- Every character in the image of `clean_string` is kept by the second
substitution. -/
theorem cleanChars_keep (l : List Char) : ∀ c ∈ cleanChars l, keepChar c = true :=
  fun _ hc => List.of_mem_filter hc

/-- Every character in the image of `clean_string` is lowercase-fixed. -/
theorem cleanChars_lower_fixed (l : List Char) :
    ∀ c ∈ cleanChars l, pyLowerChar c = c := by
  intro c hc
  have hc2 := List.mem_of_mem_filter hc
  rcases collapseSeps_subset _ c hc2 with rfl | hmem
  · rfl
  · obtain ⟨y, _, rfl⟩ := List.mem_map.mp hmem
    exact pyLowerChar_idem y

/-- Mapping a function that fixes every member of a list is the identity. -/
theorem map_eq_self_of_fixed (f : Char → Char) (l : List Char)
    (h : ∀ c ∈ l, f c = c) : l.map f = l := by
  induction l with
  | nil => rfl
  | cons c cs ih =>
      rw [List.map_cons, h c (List.mem_cons_self c cs),
        ih (fun x hx => h x (List.mem_cons_of_mem c hx))]

/-- On an already-clean character list, `clean_string` reduces to strip and
collapse (lowercasing and filtering are inert). -/
theorem cleanChars_of_clean (t : List Char)
    (hlow : ∀ c ∈ t, pyLowerChar c = c)
    (hkeep : ∀ c ∈ t, keepChar c = true) :
    cleanChars t = collapseSeps (pyStrip t) := by
  unfold cleanChars
  rw [map_eq_self_of_fixed _ _ (fun c hc => hlow c (pyStrip_subset t c hc))]
  rw [List.filter_eq_self.mpr ?_]
  intro a ha
  rcases collapseSeps_subset _ a ha with rfl | h
  · decide
  · exact hkeep a (pyStrip_subset t a h)

/-- The second pass output `collapseSeps (pyStrip t)` is a fixed point of
`clean_string` whenever `t` is in the image of `clean_string`. -/
theorem cleanChars_stable (t : List Char)
    (hsep : ∀ c ∈ t, isSep c = true → c = ' ')
    (hlow : ∀ c ∈ t, pyLowerChar c = c)
    (hkeep : ∀ c ∈ t, keepChar c = true) :
    cleanChars (collapseSeps (pyStrip t)) = collapseSeps (pyStrip t) := by
  have u_subset_t : ∀ c ∈ collapseSeps (pyStrip t), c = ' ' ∨ c ∈ t := fun c hc =>
    (collapseSeps_subset _ c hc).imp id (fun h => pyStrip_subset t c h)
  have u_sep := collapseSeps_sep_space (pyStrip t)
  have u_low : ∀ c ∈ collapseSeps (pyStrip t), pyLowerChar c = c := by
    intro c hc
    rcases u_subset_t c hc with rfl | h
    · rfl
    · exact hlow c h
  have u_keep : ∀ c ∈ collapseSeps (pyStrip t), keepChar c = true := by
    intro c hc
    rcases u_subset_t c hc with rfl | h
    · decide
    · exact hkeep c h
  have u_head : ∀ x, (collapseSeps (pyStrip t)).head? = some x → isSep x = false := by
    intro x hx
    cases hps : pyStrip t with
    | nil =>
        rw [hps] at hx
        simp [collapseSeps] at hx
    | cons d cs =>
        have hd_space : isPySpace d = false := pyStrip_head_not_space t d (by rw [hps]; rfl)
        have hd_mem : d ∈ t := pyStrip_subset t d (by rw [hps]; exact List.mem_cons_self d cs)
        have hd_sep : isSep d = false := by
          cases h : isSep d with
          | false => rfl
          | true =>
              rw [hsep d hd_mem h] at hd_space
              exact absurd hd_space (by decide)
        obtain ⟨tl, htl⟩ := collapseSeps_head_nonsep d cs hd_sep
        rw [hps, htl] at hx
        simp only [List.head?_cons, Option.some.injEq] at hx
        rw [← hx]
        exact hd_sep
  have u_last : ∀ x, (collapseSeps (pyStrip t)).getLast? = some x → isSep x = false := by
    apply collapseSeps_getLast_nonsep
    intro y hy
    have hy_space := pyStrip_last_not_space t y hy
    have hy_mem : y ∈ t := pyStrip_subset t y (mem_of_getLast?_eq _ y hy)
    cases h : isSep y with
    | false => rfl
    | true =>
        rw [hsep y hy_mem h] at hy_space
        exact absurd hy_space (by decide)
  unfold cleanChars
  rw [pyStrip_eq_self (collapseSeps (pyStrip t))
    (fun x hx => by
      cases h : isPySpace x with
      | false => rfl
      | true => exact absurd (sep_of_space x h) (by rw [u_head x hx]; simp))
    (fun x hx => by
      cases h : isPySpace x with
      | false => rfl
      | true => exact absurd (sep_of_space x h) (by rw [u_last x hx]; simp))]
  rw [map_eq_self_of_fixed _ _ u_low]
  rw [collapseSeps_fixed _ u_sep (collapseSeps_chain (pyStrip t))]
  exact List.filter_eq_self.mpr u_keep

/-- Two passes of `clean_string` reach a fixed point at character-list level. -/
theorem cleanChars_third_pass (l : List Char) :
    cleanChars (cleanChars (cleanChars l)) = cleanChars (cleanChars l) := by
  rw [cleanChars_of_clean (cleanChars l) (cleanChars_lower_fixed l) (cleanChars_keep l)]
  exact cleanChars_stable (cleanChars l) (cleanChars_sep_space l)
    (cleanChars_lower_fixed l) (cleanChars_keep l)

/-- Counterexample to C5: `clean_string` is not idempotent — collapsing the
leading hyphen of `"-a"` leaves `" a"`, which a second application strips to
`"a"`. -/
theorem clean_string_not_idempotent_cx :
    cleanString (cleanString "-a") ≠ cleanString "-a" := by decide

/-- C5 as amended: one application of `clean_string` is not idempotent (see
the counterexample), but two applications are — applying `clean_string` a
third time returns the second application's output unchanged, for every
string. -/
theorem clean_string_second_pass_fixed (s : String) :
    cleanString (cleanString (cleanString s)) = cleanString (cleanString s) :=
  congrArg String.mk (cleanChars_third_pass s.data)

end ExpenseAnalyzer
